import Mathlib

/-!
Verification of the daily-planner core (ZeiP/daily-planner).

This file is a shallow embedding, in Lean 4, of the algorithmic core of the
planner: event normalization and recurrence handling from
`planner/sources/caldav_source.py`, the todo deadline filter from
`planner/sources/tracks_source.py`, the calendar color assigner, the todo
grouping and the schedule geometry from `planner/pdf_generator.py`, and the
`PlannerData` aggregate from `planner/sources/base.py`.

Modelling conventions:
- instants are wall-clock minutes (`Int`); civil dates are day numbers
  (`Int`), with 1440 minutes per day; a Python `datetime` is a wall-clock
  value plus an optional fixed UTC offset (`none` = naive);
- the configured IANA timezone is modelled as a fixed offset `tzOff` in
  minutes (DST transitions are outside the scope of the claims checked
  here, all of which are about the offset-arithmetic structure);
- a `dateutil` recurrence rule is modelled as a generator of equally spaced
  occurrences seeded at the anchor (period in minutes, finite count), or as
  a malformed rule whose parse raises;
- page geometry uses exact rationals, with one reportlab point = 1 and
  `mm = 360 / 127` points, exactly as `reportlab.lib.units.mm` is defined.
-/

namespace DailyPlanner

open List

/-- A Python `datetime`: wall-clock minutes plus an optional fixed UTC
offset in minutes (`none` models a naive datetime, `some o` an aware one
whose absolute instant is `wall - o`). -/
structure PyDateTime where
  wall : Int
  off : Option Int
deriving DecidableEq

/-- A raw DTSTART/DTEND value as `icalendar` surfaces it: either a bare
civil date (`d`, a day number) or a datetime (`dt`). -/
inductive DtVal where
  | d (day : Int)
  | dt (x : PyDateTime)
deriving DecidableEq

/-- `x.astimezone(tz)` for an aware datetime: same absolute instant,
wall clock re-expressed at offset `tzOff`. Call sites guard on `tzinfo`
being present, mirroring the source; on a naive value this returns the
input unchanged. -/
def astimezone (x : PyDateTime) (tzOff : Int) : PyDateTime :=
  match x.off with
  | some o => ⟨x.wall - o + tzOff, some tzOff⟩
  | none => x

/-- The absolute instant of a datetime, used for aware-aware comparisons
(Python compares aware datetimes by absolute instant). A naive value
compares by its wall clock. -/
def absInstant (x : PyDateTime) : Int :=
  match x.off with
  | some o => x.wall - o
  | none => x.wall

/-- The civil date used by the non-recurring filter in `_parse_event`
(caldav_source.py lines 144-153): an aware timestamp is converted to the
configured timezone, a naive timestamp is assumed to already be in it
(`replace(tzinfo=...)` keeps the wall clock), a bare date is taken as is;
then `.date()` is the floor of the wall clock in days. -/
def checkDate (tzOff : Int) (v : DtVal) : Int :=
  match v with
  | .d day => day
  | .dt x =>
    match x.off with
    | some o => (x.wall - o + tzOff).fdiv 1440
    | none => x.wall.fdiv 1440

/-- The anchor fed to `rrulestr(..., dtstart=...)` (caldav_source.py lines
183-192): naive datetimes get the configured offset attached, aware ones
are converted to it, bare dates become midnight in the configured zone. -/
def normalizeSeed (tzOff : Int) (v : DtVal) : PyDateTime :=
  match v with
  | .dt x =>
    match x.off with
    | none => ⟨x.wall, some tzOff⟩
    | some o => ⟨x.wall - o + tzOff, some tzOff⟩
  | .d day => ⟨day * 1440, some tzOff⟩

/-- A recurrence rule: either a generator of `count` occurrences spaced
`period` minutes apart starting at the seed (modelling the `dateutil`
rrule object), or a rule whose parsing (`rrulestr`) raises. -/
inductive RRuleSpec where
  | ok (period : Nat) (count : Nat)
  | malformed
deriving DecidableEq

/-- `rule.between(a, b, inc=True)`: the occurrences of the rule seeded at
`seed` whose instants lie in the closed window `[a, b]`, in ascending
order (occurrence `k` is `seed + k * period` on the wall clock, keeping
the seed's offset, as `dateutil` steps the wall clock). -/
def betweenInc (period count : Nat) (seed a b : PyDateTime) : List PyDateTime :=
  (List.range count).filterMap fun k =>
    let o : PyDateTime := ⟨seed.wall + (k : Int) * (period : Int), seed.off⟩
    if absInstant a ≤ absInstant o ∧ absInstant o ≤ absInstant b then some o else none

/-- Python subtraction `a - b` between a DTEND value and an aware datetime:
defined (as the difference of absolute instants, or of wall clocks when
both are naive) only when both operands are datetimes of the same
awareness; otherwise it raises `TypeError`, modelled as `none`. -/
def pySubDt (a : DtVal) (b : PyDateTime) : Option Int :=
  match a with
  | .d _ => none
  | .dt x =>
    match x.off, b.off with
    | some o1, some o2 => some ((x.wall - o1) - (b.wall - o2))
    | none, none => some (x.wall - b.wall)
    | _, _ => none

/-- Outcome of the recurring-event branch of `_parse_event`: either the
occurrence is skipped (no instance on the target day) or it is kept with
the given start and end values. -/
inductive RecurOutcome where
  | skip
  | keep (s : DtVal) (e : Option DtVal)
deriving DecidableEq

/-- The recurring-event branch of `_parse_event` (caldav_source.py lines
169-230). The whole branch sits in one `try`: a parse failure of the rule,
or a `TypeError` from the duration subtraction `dtend_val - orig_start`,
is caught and the occurrence is kept with its original start and end. If
the rule enumerates no instance inside `[targetStart, targetEnd]` the
occurrence is skipped; otherwise, for a datetime start, the start is
rewritten to the earliest instance and the end (when present) to that
instance plus the original duration; a bare-date start is kept unchanged
(the `pass` branch at lines 219-223). -/
def evalRecurrence (tzOff : Int) (targetStart targetEnd : PyDateTime)
    (s : DtVal) (e : Option DtVal) : RRuleSpec → RecurOutcome
  | .malformed => .keep s e
  | .ok period count =>
    let seed := normalizeSeed tzOff s
    match (betweenInc period count seed targetStart targetEnd).head? with
    | none => .skip
    | some inst =>
      match s with
      | .dt sdt =>
        let origStart : PyDateTime :=
          match sdt.off with
          | none => ⟨sdt.wall, some tzOff⟩
          | some o => ⟨sdt.wall, some o⟩
        match e with
        | some ev =>
          match pySubDt ev origStart with
          | some dur => .keep (.dt inst) (some (.dt ⟨inst.wall + dur, inst.off⟩))
          | none => .keep s e
        | none => .keep (.dt inst) none
      | .d _ => .keep s e

/-- The normalized event record (`CalendarEvent` in base.py); times of day
are minutes from midnight. -/
structure CalendarEvent where
  title : String
  start_time : Option Int := none
  end_time : Option Int := none
  all_day : Bool := false
  location : Option String := none
  description : Option String := none
  calendar_name : String := ""
deriving DecidableEq

/-- The event construction at the end of `_parse_event` (caldav_source.py
lines 234-258): a bare-date start yields an all-day event with no times;
a datetime start yields a timed event, with start and end converted to the
configured timezone when aware, and `end_time` present only when the end
value is a datetime. -/
def buildEvent (tzOff : Int) (summary : String) (location description : Option String)
    (cal : String) (s : DtVal) (e : Option DtVal) : CalendarEvent :=
  match s with
  | .d _ =>
    { title := summary, all_day := true, location := location,
      description := description, calendar_name := cal }
  | .dt sdt =>
    let sdt' := if sdt.off.isSome then astimezone sdt tzOff else sdt
    let send : Option Int :=
      match e with
      | some (.dt x) =>
        some ((if x.off.isSome then astimezone x tzOff else x).wall % 1440)
      | _ => none
    { title := summary, start_time := some (sdt'.wall % 1440), end_time := send,
      all_day := false, location := location, description := description,
      calendar_name := cal }

/-- One VEVENT component as `_parse_event` reads it. -/
structure VEvent where
  summary : String
  dtstart : Option DtVal
  dtend : Option DtVal
  location : Option String
  description : Option String
  rrule : Option RRuleSpec
deriving DecidableEq

/-- `_parse_event` for one VEVENT component (caldav_source.py lines
110-261): skip when DTSTART is absent; for a non-recurring component keep
it exactly when its start's civil date equals the target date; for a
recurring component run the recurrence branch; finally build the event
record. `none` models the `continue` paths (the event contributes
nothing). -/
def parseEvent (tzOff target : Int) (cal : String) (c : VEvent) : Option CalendarEvent :=
  match c.dtstart with
  | none => none
  | some sv =>
    let targetStart : PyDateTime := ⟨target * 1440, some tzOff⟩
    let targetEnd : PyDateTime := ⟨(target + 1) * 1440, some tzOff⟩
    match c.rrule with
    | none =>
      if checkDate tzOff sv = target then
        some (buildEvent tzOff c.summary c.location c.description cal sv c.dtend)
      else none
    | some rr =>
      match evalRecurrence tzOff targetStart targetEnd sv c.dtend rr with
      | .skip => none
      | .keep s e => some (buildEvent tzOff c.summary c.location c.description cal s e)

/-- The events contributed by a batch of VEVENT components, in order (the
loop in `_parse_event` over `ical.walk()` appends one event per kept
component; `_fetch_calendar_events` catches any per-event failure and
continues with the next component). -/
def parsedEvents (tzOff target : Int) (cal : String) (cs : List VEvent) : List CalendarEvent :=
  cs.filterMap (parseEvent tzOff target cal)

/-- A concrete non-recurring component whose naive start lies on day 10
at 09:00 (wall minutes 14940). -/
def c1demo : VEvent :=
  ⟨"Dentist", some (.dt ⟨14940, none⟩), none, none, none, none⟩

/-- A concrete recurring component: naive start day 9 at 09:00, naive end
day 9 at 10:00, rule firing every 1000 minutes for 50 occurrences. Its
earliest occurrence inside day 10 is at wall minute 14500 (01:40). -/
def c2comp : VEvent :=
  ⟨"Standup", some (.dt ⟨13500, none⟩), some (.dt ⟨13560, none⟩),
   none, none, some (.ok 1000 50)⟩

/-- C1: a non-recurring occurrence with a start value yields an event iff
its start's civil date (aware values converted to the configured zone,
naive values taken as already in it, bare dates as-is) equals the target
date; any other start date, including a multi-day span over the target,
contributes nothing. -/
theorem c1_nonrecurring_start_date_filter
    (tzOff target : Int) (cal : String) (c : VEvent) (sv : DtVal)
    (hr : c.rrule = none) (hs : c.dtstart = some sv) :
    (parseEvent tzOff target cal c).isSome ↔ checkDate tzOff sv = target := by
  obtain ⟨su, ds, de, lo, desc, rr⟩ := c
  cases hr
  cases hs
  simp only [parseEvent]
  split <;> simp_all

/-- Witness for C1 at a concrete input: the `c1demo` component starts on
day 10 (14940 = 10 * 1440 + 540), so for target day 10 the equivalence is
inhabited on both sides. -/
theorem c1_witness :
    ((parseEvent 120 10 "Work" c1demo).isSome ↔
      checkDate 120 (.dt ⟨14940, none⟩) = 10) ∧
    checkDate 120 (.dt ⟨14940, none⟩) = 10 ∧
    (parseEvent 120 11 "Work" c1demo).isSome = false :=
  ⟨c1_nonrecurring_start_date_filter 120 10 "Work" c1demo _ rfl rfl,
   by decide, by decide⟩

/-- C2, evaluated at the failing input: `c2comp` carries a recurrence rule
with an occurrence inside the target day (earliest instance at wall 14500,
i.e. time of day 100 minutes), yet the produced event keeps the original
un-shifted times 540-600. The duration subtraction
`dtend_val - orig_start` mixes a naive end with the offset-attached
(aware) anchor, raising `TypeError`, which the catch-all turns into
"keep original". -/
theorem c2_recurrence_rewrite_bug :
    parseEvent 120 10 "Work" c2comp =
      some { title := "Standup", start_time := some 540, end_time := some 600,
             all_day := false, location := none, description := none,
             calendar_name := "Work" } ∧
    (betweenInc 1000 50 (normalizeSeed 120 (.dt ⟨13500, none⟩))
        ⟨14400, some 120⟩ ⟨15840, some 120⟩).head? = some ⟨14500, some 120⟩ ∧
    ((14500 : Int) % 1440 ≠ 540) := by
  refine ⟨by decide, by decide, by decide⟩

/-- C3: a component whose recurrence rule fails to parse is not dropped:
the event is kept with its original, un-shifted start and end values, and
the surrounding batch keeps processing the remaining components. -/
theorem c3_malformed_rule_keeps_event
    (tzOff target : Int) (cal su : String) (lo de : Option String)
    (sv : DtVal) (ev : Option DtVal) (xs ys : List VEvent) :
    parseEvent tzOff target cal ⟨su, some sv, ev, lo, de, some .malformed⟩ =
      some (buildEvent tzOff su lo de cal sv ev) ∧
    parsedEvents tzOff target cal (xs ++ ⟨su, some sv, ev, lo, de, some .malformed⟩ :: ys) =
      parsedEvents tzOff target cal xs ++
        buildEvent tzOff su lo de cal sv ev :: parsedEvents tzOff target cal ys := by
  refine ⟨rfl, ?_⟩
  simp [parsedEvents, List.filterMap_append]
  rfl

/-! ### Todo filtering and ordering (tracks_source.py) -/

/-- A todo record (`TodoItem` in base.py); due dates are encoded as
integers ordered like civil dates. -/
structure TodoItem where
  description : String
  context : String := ""
  project : String := ""
  due_date : Option Int := none
  notes : String := ""
  priority : Int := 0
deriving DecidableEq

/-- The deadline predicate of `fetch` (tracks_source.py lines 41-44):
`t.due_date and t.due_date <= target_date`; a missing due date is falsy. -/
def isRelevant (target : Int) (t : TodoItem) : Bool :=
  match t.due_date with
  | some d => d ≤ target
  | none => false

/-- The sort key `lambda t: t.due_date`; every sorted element has a due
date, so the default is never consulted. -/
def dueKey (t : TodoItem) : Int := t.due_date.getD 0

/-- The descending comparison realised by
`sort(key=lambda t: t.due_date, reverse=True)`. -/
def dueGE (a b : TodoItem) : Prop := dueKey b ≤ dueKey a

instance : DecidableRel dueGE := fun _ _ => inferInstanceAs (Decidable (_ ≤ _))

instance : IsTotal TodoItem dueGE := ⟨fun a b => le_total (dueKey b) (dueKey a)⟩

instance : IsTrans TodoItem dueGE := ⟨fun _ _ _ h1 h2 => le_trans h2 h1⟩

/-- The todo selection of `fetch` (tracks_source.py lines 41-45): keep the
todos with a due date on or before the target date, then stable-sort them
descending by due date (Python's `list.sort` is stable; `reverse=True`
keeps the original order of equal keys). Modelled with the stable
`List.insertionSort`. -/
def fetchRelevant (todos : List TodoItem) (target : Int) : List TodoItem :=
  List.insertionSort dueGE (todos.filter (isRelevant target))

lemma perm_fetchRelevant (todos : List TodoItem) (target : Int) :
    fetchRelevant todos target ~ todos.filter (isRelevant target) :=
  List.perm_insertionSort dueGE _

lemma pairwise_fetchRelevant (todos : List TodoItem) (target : Int) :
    (fetchRelevant todos target).Pairwise dueGE :=
  List.sorted_insertionSort dueGE _

lemma stable_fetchRelevant (todos : List TodoItem) (target : Int) (d : Int) :
    (fetchRelevant todos target).filter (fun t => dueKey t == d) =
      (todos.filter (isRelevant target)).filter (fun t => dueKey t == d) := by
  set base := todos.filter (isRelevant target) with hbase
  set c := base.filter (fun t => dueKey t == d) with hc
  have hmemc : ∀ t ∈ c, dueKey t = d := by
    intro t ht
    have := (List.mem_filter.mp ht).2
    simpa using this
  have hpair : c.Pairwise dueGE := by
    refine List.pairwise_of_forall_mem_list ?_
    intro a ha b hb
    have h1 := hmemc a ha
    have h2 := hmemc b hb
    simp only [dueGE]
    omega
  have hsub : c <+ fetchRelevant todos target :=
    List.sublist_insertionSort hpair (List.filter_sublist base)
  have hcc : c.filter (fun t => dueKey t == d) = c :=
    List.filter_eq_self.mpr (by intro a ha; simpa using hmemc a ha)
  have hsub2 : c <+ (fetchRelevant todos target).filter (fun t => dueKey t == d) := by
    have := hsub.filter (fun t => dueKey t == d)
    rwa [hcc] at this
  have hperm : (fetchRelevant todos target).filter (fun t => dueKey t == d) ~ c :=
    (perm_fetchRelevant todos target).filter _
  exact (hsub2.eq_of_length hperm.length_eq.symm).symm

/-- C4: the filter keeps exactly the todos with a set due date on or
before the target (never one without a due date), and the output is
non-increasing by due date, with the original relative order preserved
among equal due dates. -/
theorem c4_todo_filter_spec (todos : List TodoItem) (target : Int) :
    fetchRelevant todos target ~ todos.filter (isRelevant target) ∧
    (fetchRelevant todos target).all (isRelevant target) = true ∧
    (fetchRelevant todos target).Pairwise dueGE ∧
    ∀ d : Int, (fetchRelevant todos target).filter (fun t => dueKey t == d) =
      (todos.filter (isRelevant target)).filter (fun t => dueKey t == d) := by
  refine ⟨perm_fetchRelevant todos target, ?_, pairwise_fetchRelevant todos target,
    stable_fetchRelevant todos target⟩
  rw [List.all_eq_true]
  intro t ht
  have hmem : t ∈ todos.filter (isRelevant target) :=
    (perm_fetchRelevant todos target).mem_iff.mp ht
  exact (List.mem_filter.mp hmem).2

/-- Two concrete todos: `c5older` is more overdue than `c5newer`. -/
def c5older : TodoItem := ⟨"water plants", "", "", some 1, "", 0⟩

/-- The later-due companion of `c5older`. -/
def c5newer : TodoItem := ⟨"file report", "", "", some 2, "", 0⟩

/-- C5 counterexample: the filter sorts descending (`reverse=True`), so
the todo with the smaller (more overdue) due date comes out last, not
first as the claim states. -/
theorem c5_counterexample :
    fetchRelevant [c5older, c5newer] 2 = [c5newer, c5older] ∧
    dueKey c5older < dueKey c5newer := by
  refine ⟨by decide, by decide⟩

/-- C5 amended: the filter orders the selected todos non-increasing by due
date — the most overdue items come last; any returned todo with a larger
due date appears before every returned todo with a smaller one. -/
theorem c5_amended_descending (todos : List TodoItem) (target : Int) :
    (fetchRelevant todos target).Pairwise dueGE :=
  pairwise_fetchRelevant todos target

/-! ### Calendar color assignment (pdf_generator.py lines 67-73, 126-131) -/

/-- The fixed cyclic palette `CALENDAR_COLORS`: five (fill, border) hex
color pairs. -/
def CALENDAR_COLORS : List (String × String) :=
  [("#e8f0fe", "#4285f4"), ("#e6f4ea", "#34a853"), ("#fef7e0", "#fbbc04"),
   ("#fce8e6", "#ea4335"), ("#f3e8fd", "#a142f4")]

/-- Lookup in the insertion-ordered `_calendar_color_map` dict, modelled
as an association list. -/
def mapLookup : List (String × Nat) → String → Option Nat
  | [], _ => none
  | (k, v) :: rest, n => if k = n then some v else mapLookup rest n

/-- The state update of `_get_calendar_color`: an unseen calendar name is
assigned the next index, `len(map) % len(CALENDAR_COLORS)`; a seen name
leaves the map untouched. -/
def assignStep (s : List (String × Nat)) (n : String) : List (String × Nat) :=
  match mapLookup s n with
  | some _ => s
  | none => s ++ [(n, s.length % CALENDAR_COLORS.length)]

/-- The palette index returned by one `_get_calendar_color` call in state
`s` (the map after the call is `assignStep s n`, and the entry is always
present then). -/
def colorIdx (s : List (String × Nat)) (n : String) : Nat :=
  (mapLookup (assignStep s n) n).getD 0

/-- The (fill, border) pair returned by one `_get_calendar_color` call:
`CALENDAR_COLORS[idx]`. -/
def colorPair (s : List (String × Nat)) (n : String) : String × String :=
  CALENDAR_COLORS.getD (colorIdx s n) ("", "")

/-- The color map after a run of lookups starting from the empty map. -/
def runAssigner (names : List String) : List (String × Nat) :=
  names.foldl assignStep []

/-- Checks that the k-th inserted entry carries palette index
`k % len(CALENDAR_COLORS)`, counting from `i`. -/
def idxInvFrom : Nat → List (String × Nat) → Bool
  | _, [] => true
  | i, (_, v) :: rest => v == i % CALENDAR_COLORS.length && idxInvFrom (i + 1) rest

lemma mapLookup_append (s t : List (String × Nat)) (n : String) :
    mapLookup (s ++ t) n =
      match mapLookup s n with
      | some v => some v
      | none => mapLookup t n := by
  induction s with
  | nil => simp [mapLookup]
  | cons p rest ih =>
    obtain ⟨k, v⟩ := p
    by_cases h : k = n <;> simp [mapLookup, h, ih]

lemma mapLookup_assignStep_self (s : List (String × Nat)) (n : String) :
    mapLookup (assignStep s n) n =
      some ((mapLookup s n).getD (s.length % CALENDAR_COLORS.length)) := by
  unfold assignStep
  cases h : mapLookup s n with
  | some v => simp [h]
  | none => simp [mapLookup_append, h, mapLookup]

lemma mapLookup_assignStep_mono (s : List (String × Nat)) (m n : String) (v : Nat)
    (h : mapLookup s n = some v) : mapLookup (assignStep s m) n = some v := by
  unfold assignStep
  cases hm : mapLookup s m with
  | some w => simpa using h
  | none => simp [mapLookup_append, h]

lemma mapLookup_foldl_mono (l : List String) :
    ∀ (s : List (String × Nat)) (n : String) (v : Nat),
      mapLookup s n = some v → mapLookup (l.foldl assignStep s) n = some v := by
  induction l with
  | nil => intro s n v h; simpa using h
  | cons m rest ih =>
    intro s n v h
    exact ih (assignStep s m) n v (mapLookup_assignStep_mono s m n v h)

lemma colorIdx_of_present (s : List (String × Nat)) (n : String) (v : Nat)
    (h : mapLookup s n = some v) : colorIdx s n = v := by
  unfold colorIdx assignStep
  simp [h]

lemma colorIdx_first_lookup (l1 l2 : List String) (n : String) :
    colorIdx (runAssigner (l1 ++ n :: l2)) n = colorIdx (runAssigner l1) n := by
  have hrun : runAssigner (l1 ++ n :: l2) =
      l2.foldl assignStep (assignStep (runAssigner l1) n) := by
    simp [runAssigner, List.foldl_append]
  have hself := mapLookup_assignStep_self (runAssigner l1) n
  have hkeep := mapLookup_foldl_mono l2 (assignStep (runAssigner l1) n) n _ hself
  rw [hrun, colorIdx_of_present _ n _ hkeep, colorIdx, hself]
  rfl

lemma idxInvFrom_append (m : String) :
    ∀ (i : Nat) (s : List (String × Nat)), idxInvFrom i s = true →
      idxInvFrom i (s ++ [(m, (i + s.length) % CALENDAR_COLORS.length)]) = true := by
  intro i s
  induction s generalizing i with
  | nil => intro _; simp [idxInvFrom]
  | cons p rest ih =>
    obtain ⟨k, v⟩ := p
    intro h
    simp only [idxInvFrom, Bool.and_eq_true, beq_iff_eq] at h ⊢
    refine ⟨h.1, ?_⟩
    have := ih (i + 1) h.2
    simpa [Nat.add_comm, Nat.add_assoc, Nat.add_left_comm] using this

lemma idxInvFrom_assignStep (s : List (String × Nat)) (n : String)
    (h : idxInvFrom 0 s = true) : idxInvFrom 0 (assignStep s n) = true := by
  unfold assignStep
  cases hn : mapLookup s n with
  | some v => simpa using h
  | none =>
    have := idxInvFrom_append n 0 s h
    simpa using this

lemma idxInvFrom_runAssigner (names : List String) :
    idxInvFrom 0 (runAssigner names) = true := by
  suffices h : ∀ s, idxInvFrom 0 s = true → idxInvFrom 0 (names.foldl assignStep s) = true by
    exact h [] rfl
  induction names with
  | nil => intro s hs; simpa using hs
  | cons m rest ih =>
    intro s hs
    exact ih (assignStep s m) (idxInvFrom_assignStep s m hs)

/-- C7: over any run of `_get_calendar_color` lookups: (1) the k-th
distinct name (0-based) in the map carries palette index
`k % len(CALENDAR_COLORS)` — in particular the first distinct name gets
index 0 and the sixth gets the same index, hence the same pair, as the
first; (2) every repeated lookup of a name returns the same pair as its
first lookup; (3) the first lookup of a fresh run returns index 0; (4) a
concrete six-name run wraps around: the sixth distinct name gets the
first name's index. -/
theorem c7_color_assigner_spec :
    (∀ names : List String, idxInvFrom 0 (runAssigner names) = true) ∧
    (∀ (l1 l2 : List String) (n : String),
      colorPair (runAssigner (l1 ++ n :: l2)) n = colorPair (runAssigner l1) n) ∧
    (∀ (n : String) (l2 : List String), colorIdx (runAssigner (n :: l2)) n = 0) ∧
    colorIdx (runAssigner ["a", "b", "c", "d", "e", "f"]) "f" =
      colorIdx (runAssigner ["a", "b", "c", "d", "e", "f"]) "a" := by
  refine ⟨idxInvFrom_runAssigner, ?_, ?_, by decide⟩
  · intro l1 l2 n
    unfold colorPair
    rw [colorIdx_first_lookup]
  · intro n l2
    have h := colorIdx_first_lookup [] l2 n
    simpa [runAssigner, colorIdx, assignStep, mapLookup] using h

/-! ### Schedule geometry (pdf_generator.py) -/

/-- One reportlab millimetre in points: `mm = 72 / 25.4 = 360 / 127`,
exactly as `reportlab.lib.units` defines it. -/
def mmU : Rat := 360 / 127

/-- A4 page height in points (`297 * mm`). -/
def PAGE_HEIGHT : Rat := 297 * mmU

/-- Top margin (15 mm). -/
def MARGIN_TOP : Rat := 15 * mmU

/-- Bottom margin (12 mm). -/
def MARGIN_BOTTOM : Rat := 12 * mmU

/-- Header band height (12 mm). -/
def HEADER_HEIGHT : Rat := 12 * mmU

/-- Billable-hours band height (12 mm). -/
def BILLABLE_HEIGHT : Rat := 12 * mmU

/-- Reflection band height (42 mm). -/
def REFLECTION_HEIGHT : Rat := 42 * mmU

/-- Footer band height (5 mm). -/
def FOOTER_HEIGHT : Rat := 5 * mmU

/-- Y returned by `_draw_header`: `PAGE_HEIGHT - MARGIN_TOP - HEADER_HEIGHT`. -/
def headerBottom : Rat := PAGE_HEIGHT - MARGIN_TOP - HEADER_HEIGHT

/-- Y returned by `_draw_readiness`: the header bottom lowered by the
fixed offsets 7 + 6 + 8 + 4 mm taken inside that drawing routine. -/
def readinessBottom : Rat := headerBottom - 25 * mmU

/-- `schedule_top = readiness_bottom - 5 * mm` (generate, line 106). -/
def scheduleTop : Rat := readinessBottom - 5 * mmU

/-- `reflection_top = MARGIN_BOTTOM + FOOTER_HEIGHT + REFLECTION_HEIGHT`. -/
def reflectionTop : Rat := MARGIN_BOTTOM + FOOTER_HEIGHT + REFLECTION_HEIGHT

/-- `billable_top = reflection_top + BILLABLE_HEIGHT + 4 * mm`. -/
def billableTop : Rat := reflectionTop + BILLABLE_HEIGHT + 4 * mmU

/-- The PDF generator state built by `__init__` (pdf_generator.py lines
90-93): it stores the two hours and an empty color map. -/
structure PlannerPDFGenerator where
  day_start_hour : Int
  day_end_hour : Int
  calendar_color_map : List (String × Nat) := []
deriving DecidableEq

/-- `PlannerPDFGenerator.__init__`: stores the configured hours verbatim;
the source contains no validation of `day_start_hour < day_end_hour`. -/
def PlannerPDFGenerator.init (s e : Int) : PlannerPDFGenerator := ⟨s, e, []⟩

/-- The hour-grid geometry computed by `_draw_schedule` (pdf_generator.py
lines 205-252): `numHours` hour rows of height
`min(available_height / num_hours, 12 * mm)`. -/
structure ScheduleGeom where
  numHours : Int
  slotHeight : Rat
  hourRows : Nat
deriving DecidableEq

/-- The geometry part of `_draw_schedule` (lines 219-230): the grid top is
5 mm under the section title, lowered by 6 mm per all-day banner plus a
3 mm gap when any banner exists; `num_hours = day_end - day_start`;
division by a zero `num_hours` raises `ZeroDivisionError` (modelled as
`none`); `range(num_hours)` draws `max(num_hours, 0)` hour rows. -/
def drawScheduleGeom (dayStart dayEnd : Int) (topY bottomLimit : Rat)
    (allDayCount : Nat) : Option ScheduleGeom :=
  let y := topY - 5 * mmU
  let y := if allDayCount > 0 then y - (allDayCount : Rat) * (6 * mmU) - 3 * mmU else y
  let numHours : Int := dayEnd - dayStart
  if numHours = 0 then none
  else some ⟨numHours, min ((y - bottomLimit) / (numHours : Rat)) (12 * mmU), numHours.toNat⟩

/-- C6, evaluated on the code: a configuration with
`day_start_hour >= day_end_hour` is accepted by `__init__` unvalidated;
with `21 >= 8` the schedule geometry is produced without any failure and
is degenerate (negative slot height, zero hour rows); with the equal-hours
configuration `8, 8` the layout raises `ZeroDivisionError` mid-draw
(after the header and readiness sections) instead of being rejected up
front. -/
theorem c6_degenerate_layout_not_rejected :
    PlannerPDFGenerator.init 21 8 =
      { day_start_hour := 21, day_end_hour := 8, calendar_color_map := [] } ∧
    drawScheduleGeom 8 8 scheduleTop billableTop 0 = none ∧
    drawScheduleGeom 21 8 scheduleTop billableTop 0 =
      some ⟨-13, -(57600 / 1651 : Rat), 0⟩ ∧
    (-(57600 / 1651 : Rat)) < 0 := by
  have havail : scheduleTop - 5 * mmU - billableTop = 57600 / 127 := by
    norm_num [scheduleTop, readinessBottom, headerBottom, PAGE_HEIGHT, MARGIN_TOP,
      HEADER_HEIGHT, billableTop, reflectionTop, MARGIN_BOTTOM, FOOTER_HEIGHT,
      REFLECTION_HEIGHT, BILLABLE_HEIGHT, mmU]
  refine ⟨rfl, by norm_num [drawScheduleGeom], ?_, by norm_num⟩
  simp only [drawScheduleGeom]
  norm_num [havail]
  norm_num [mmU]

/-! ### Todo grouping in the todos column (pdf_generator.py lines 361-377) -/

/-- The group label of a todo: `todo.context or "No Context"` — the empty
context string is falsy, so it is replaced by the literal `"No Context"`. -/
def labelOf (t : TodoItem) : String :=
  if t.context = "" then "No Context" else t.context

/-- `contexts.setdefault(ctx, []).append(todo)` on an insertion-ordered
dict modelled as an association list: append the todo to the first entry
with the given key, or add a new entry at the end. -/
def addTodo : List (String × List TodoItem) → String → TodoItem → List (String × List TodoItem)
  | [], lbl, t => [(lbl, [t])]
  | (k, g) :: rest, lbl, t =>
    if k = lbl then (k, g ++ [t]) :: rest else (k, g) :: addTodo rest lbl t

/-- The grouping loop of `_draw_todos`: one dict entry per distinct label,
entries in first-seen order, each holding its todos in input order. -/
def buildGroups (todos : List TodoItem) : List (String × List TodoItem) :=
  todos.foldl (fun gs t => addTodo gs (labelOf t) t) []

/-- The order used by `sorted(contexts.items())`: lexicographic on the
key (keys are distinct, so the values are never compared). -/
def ctxLE (p q : String × List TodoItem) : Prop := p.1 ≤ q.1

instance : DecidableRel ctxLE := fun _ _ => inferInstanceAs (Decidable (_ ≤ _))

instance : IsTotal (String × List TodoItem) ctxLE := ⟨fun p q => le_total p.1 q.1⟩

instance : IsTrans (String × List TodoItem) ctxLE := ⟨fun _ _ _ h1 h2 => le_trans h1 h2⟩

/-- `sorted(contexts.items())`: the groups ordered alphabetically by
context label. -/
def sortedGroups (todos : List TodoItem) : List (String × List TodoItem) :=
  List.insertionSort ctxLE (buildGroups todos)

lemma mem_keys_addTodo (lbl m : String) (t : TodoItem) :
    ∀ gs : List (String × List TodoItem),
      (m ∈ (addTodo gs lbl t).map Prod.fst ↔ m ∈ gs.map Prod.fst ∨ m = lbl) := by
  intro gs
  induction gs with
  | nil => simp [addTodo]
  | cons p rest ih =>
    obtain ⟨k, g⟩ := p
    by_cases h : k = lbl
    · subst h
      simp [addTodo]
      tauto
    · simp [addTodo, h, ih]
      tauto

lemma nodup_keys_addTodo (lbl : String) (t : TodoItem) :
    ∀ gs : List (String × List TodoItem), (gs.map Prod.fst).Nodup →
      ((addTodo gs lbl t).map Prod.fst).Nodup := by
  intro gs
  induction gs with
  | nil => intro _; simp [addTodo]
  | cons p rest ih =>
    obtain ⟨k, g⟩ := p
    intro h
    simp only [List.map_cons, List.nodup_cons] at h
    by_cases hk : k = lbl
    · subst hk
      simpa [addTodo] using h
    · simp only [addTodo, if_neg hk, List.map_cons, List.nodup_cons]
      refine ⟨?_, ih h.2⟩
      rw [mem_keys_addTodo]
      push_neg
      exact ⟨h.1, hk⟩

lemma addTodo_groups (t : TodoItem) (l : List TodoItem) :
    ∀ gs : List (String × List TodoItem),
      (∀ p ∈ gs, p.2 = l.filter (fun u => labelOf u == p.1)) →
      (labelOf t ∉ gs.map Prod.fst → l.filter (fun u => labelOf u == labelOf t) = []) →
      (gs.map Prod.fst).Nodup →
      ∀ p ∈ addTodo gs (labelOf t) t,
        p.2 = (l ++ [t]).filter (fun u => labelOf u == p.1) := by
  intro gs
  induction gs with
  | nil =>
    intro _ h2 _ p hp
    simp only [addTodo, List.mem_singleton] at hp
    subst hp
    simp [List.filter_append, h2 (by simp)]
  | cons q rest ih =>
    obtain ⟨k, g⟩ := q
    intro h1 h2 hnd p hp
    simp only [List.map_cons, List.nodup_cons] at hnd
    by_cases hk : k = labelOf t
    · subst hk
      rw [addTodo, if_pos rfl] at hp
      rcases List.mem_cons.mp hp with hep | hmem
      · subst hep
        have hg := h1 (labelOf t, g) (by simp)
        simp only at hg
        simp [List.filter_append, ← hg]
      · have hval := h1 p (by simp [hmem])
        have hne : p.1 ≠ labelOf t := by
          intro he
          apply hnd.1
          rw [← he]
          exact List.mem_map_of_mem Prod.fst hmem
        have hfalse : (labelOf t == p.1) = false :=
          beq_eq_false_iff_ne.mpr fun he => hne he.symm
        simp [List.filter_append, hval, hfalse]
    · rw [addTodo, if_neg hk] at hp
      rcases List.mem_cons.mp hp with hep | hmem
      · subst hep
        have hg := h1 (k, g) (by simp)
        simp only at hg
        have hfalse : (labelOf t == k) = false :=
          beq_eq_false_iff_ne.mpr fun he => hk he.symm
        simp [List.filter_append, hg, hfalse]
      · refine ih (fun q hq => h1 q (by simp [hq])) ?_ hnd.2 p hmem
        intro habs
        refine h2 ?_
        simp only [List.map_cons, List.mem_cons]
        push_neg
        exact ⟨fun he => hk he.symm, habs⟩

lemma buildGroups_loop (todos : List TodoItem) :
    ∀ (gs : List (String × List TodoItem)) (l : List TodoItem),
      (∀ p ∈ gs, p.2 = l.filter (fun u => labelOf u == p.1)) →
      (∀ u ∈ l, labelOf u ∈ gs.map Prod.fst) →
      (gs.map Prod.fst).Nodup →
      ∀ p ∈ todos.foldl (fun gs t => addTodo gs (labelOf t) t) gs,
        p.2 = (l ++ todos).filter (fun u => labelOf u == p.1) := by
  induction todos with
  | nil => intro gs l h1 _ _ p hp; simpa using h1 p hp
  | cons t rest ih =>
    intro gs l h1 h2 hnd p hp
    have h2' : labelOf t ∉ gs.map Prod.fst →
        l.filter (fun u => labelOf u == labelOf t) = [] := by
      intro habs
      rw [List.filter_eq_nil_iff]
      intro u hu hbeq
      exact habs (by rw [← show labelOf u = labelOf t by simpa using hbeq]; exact h2 u hu)
    have hstep := addTodo_groups t l gs h1 h2' hnd
    have hkeys : ∀ u ∈ l ++ [t], labelOf u ∈ (addTodo gs (labelOf t) t).map Prod.fst := by
      intro u hu
      rw [mem_keys_addTodo]
      rcases List.mem_append.mp hu with hul | hut
      · exact Or.inl (h2 u hul)
      · simp only [List.mem_singleton] at hut
        subst hut
        exact Or.inr rfl
    have hres := ih (addTodo gs (labelOf t) t) (l ++ [t]) hstep hkeys
      (nodup_keys_addTodo (labelOf t) t gs hnd) p (by simpa using hp)
    simpa using hres

lemma buildGroups_spec (todos : List TodoItem) :
    ∀ p ∈ buildGroups todos, p.2 = todos.filter (fun u => labelOf u == p.1) := by
  intro p hp
  have := buildGroups_loop todos [] [] (by simp) (by simp) (by simp) p hp
  simpa using this

/-- C8 amended: the todos column groups todos by context; the empty
context is labeled with the literal `"No Context"` (rendered as
"@ No Context"), not "uncategorized"; groups are ordered alphabetically by
label; within a group, todos keep exactly the order the todo filter
produced (each group equals the label-filtered input list). -/
theorem c8_grouping_spec (todos : List TodoItem) :
    (sortedGroups todos).Pairwise ctxLE ∧
    (∀ p ∈ sortedGroups todos, p.2 = todos.filter (fun u => labelOf u == p.1)) ∧
    (∀ (de pr no : String) (dd : Option Int) (pri : Int),
      labelOf ⟨de, "", pr, dd, no, pri⟩ = "No Context") := by
  refine ⟨List.sorted_insertionSort ctxLE _, ?_, fun _ _ _ _ _ => rfl⟩
  intro p hp
  have hmem : p ∈ buildGroups todos :=
    (List.perm_insertionSort ctxLE (buildGroups todos)).mem_iff.mp hp
  exact buildGroups_spec todos p hmem

/-- A concrete todo with an empty context. -/
def c8plain : TodoItem := ⟨"water plants", "", "", none, "", 0⟩

/-- A second concrete todo with an empty context. -/
def c8plain2 : TodoItem := ⟨"buy seeds", "", "", none, "", 0⟩

/-- C8 counterexample: the empty-context group is labeled "No Context",
not the literal "uncategorized" the claim states. -/
theorem c8_counterexample :
    sortedGroups [c8plain] = [("No Context", [c8plain])] ∧
    ("No Context" : String) ≠ "uncategorized" := by
  refine ⟨by decide, by decide⟩

/-- Witness for C8's amended groups-equal-filter part at a concrete
input: the "No Context" group of a two-todo list is exactly the
label-filtered input. -/
theorem c8_witness :
    (("No Context", [c8plain, c8plain2]) : String × List TodoItem).2 =
      [c8plain, c8plain2].filter (fun u => labelOf u == "No Context") :=
  (c8_grouping_spec [c8plain, c8plain2]).2.1 ("No Context", [c8plain, c8plain2]) (by decide)

/-! ### PlannerData aggregate and the two fetch stages (base.py,
tracks_source.py, caldav_source.py) -/

/-- The shared aggregate populated by the fetch stages (base.py lines
32-37). -/
structure PlannerData where
  target_date : Int
  events : List CalendarEvent := []
  todos : List TodoItem := []
deriving DecidableEq

/-- `TracksSource.fetch` (tracks_source.py lines 29-53): filters and sorts
the fetched todos and extends `data.todos` with the result; nothing else
in the aggregate is touched. -/
def tracksFetch (raw : List TodoItem) (target : Int) (data : PlannerData) : PlannerData :=
  { data with todos := data.todos ++ fetchRelevant raw target }

/-- The `data.events.append(event)` loop of `_parse_event` over a batch of
components (caldav_source.py lines 234-261), one append per kept
component. -/
def parseEventsInto (tzOff target : Int) (cal : String) (comps : List VEvent)
    (data : PlannerData) : PlannerData :=
  comps.foldl
    (fun d comp =>
      match parseEvent tzOff target cal comp with
      | some e => { d with events := d.events ++ [e] }
      | none => d)
    data

lemma parseEventsInto_eq (tzOff target : Int) (cal : String) :
    ∀ (comps : List VEvent) (data : PlannerData),
      parseEventsInto tzOff target cal comps data =
        { data with events := data.events ++ parsedEvents tzOff target cal comps } := by
  intro comps
  induction comps with
  | nil => intro data; simp [parseEventsInto, parsedEvents]
  | cons c rest ih =>
    intro data
    rw [parseEventsInto, List.foldl_cons]
    cases hc : parseEvent tzOff target cal c with
    | none =>
      rw [← parseEventsInto]
      rw [ih data]
      simp [parsedEvents, List.filterMap_cons, hc]
    | some e =>
      rw [← parseEventsInto]
      rw [ih { data with events := data.events ++ [e] }]
      simp [parsedEvents, List.filterMap_cons, hc]

/-- C9: each fetch stage only extends its own sequence of the aggregate —
the todo fetch appends the filtered todos and leaves events and the
target date untouched, and event parsing appends the parsed events and
leaves todos and the target date untouched; existing elements are
preserved in place as a prefix. -/
theorem c9_fetch_frame (raw : List TodoItem) (target : Int) (data : PlannerData)
    (tzOff tgt : Int) (cal : String) (comps : List VEvent) :
    (tracksFetch raw target data).events = data.events ∧
    (tracksFetch raw target data).target_date = data.target_date ∧
    (tracksFetch raw target data).todos = data.todos ++ fetchRelevant raw target ∧
    (parseEventsInto tzOff tgt cal comps data).todos = data.todos ∧
    (parseEventsInto tzOff tgt cal comps data).target_date = data.target_date ∧
    (parseEventsInto tzOff tgt cal comps data).events =
      data.events ++ parsedEvents tzOff tgt cal comps := by
  refine ⟨rfl, rfl, rfl, ?_, ?_, ?_⟩ <;> rw [parseEventsInto_eq]

/-! ### Raw todo parsing (`_fetch_todos`, tracks_source.py lines 98-143) -/

/-- One raw `todo` XML element, with the fields `_fetch_todos` reads.
Context and project ids are modelled as already-numeric optional values
(`findtext` plus `int`); the due date is kept as the raw string. -/
structure RawTodo where
  description : String
  contextId : Option Nat := none
  projectId : Option Nat := none
  due : String := ""
  notes : String := ""
deriving DecidableEq

/-- `dict.get(key, "")` on the id-to-name mappings. -/
def natLookup : List (Nat × String) → Nat → Option String
  | [], _ => none
  | (k, v) :: rest, n => if k = n then some v else natLookup rest n

/-- Numeric value of a decimal digit character. -/
def digitVal (c : Char) : Nat := c.toNat - 48

/-- Gregorian leap-year test, as `datetime.date` validates it. -/
def isLeap (y : Nat) : Bool := (y % 4 == 0 && y % 100 != 0) || y % 400 == 0

/-- Days in a month, as `datetime.date` validates it. -/
def daysInMonth (y m : Nat) : Nat :=
  if m = 2 then (if isLeap y then 29 else 28)
  else if m = 4 ∨ m = 6 ∨ m = 9 ∨ m = 11 then 30 else 31

/-- Python `str.strip()`: drop leading and trailing whitespace (modelled
structurally over the character list). -/
def pyStrip (s : String) : String :=
  ⟨List.reverse (List.dropWhile Char.isWhitespace
    (List.reverse (List.dropWhile Char.isWhitespace s.data)))⟩

/-- Python `due_str.split("T")[0]`: the prefix before the first "T". -/
def beforeT (s : String) : String :=
  ⟨s.data.takeWhile (fun c => c ≠ 'T')⟩

/-- `datetime.date.fromisoformat`: accepts exactly `YYYY-MM-DD` with a
valid calendar date (year at least 1), rejecting anything else with
`ValueError` (modelled as `none`). The result is encoded as the integer
`y * 10000 + m * 100 + d`, which orders like the civil date. -/
def parseIsoDate (s : String) : Option Int :=
  match s.toList with
  | [y1, y2, y3, y4, c1, m1, m2, c2, d1, d2] =>
    if c1 = '-' ∧ c2 = '-' ∧ y1.isDigit ∧ y2.isDigit ∧ y3.isDigit ∧ y4.isDigit ∧
        m1.isDigit ∧ m2.isDigit ∧ d1.isDigit ∧ d2.isDigit then
      let y := ((digitVal y1 * 10 + digitVal y2) * 10 + digitVal y3) * 10 + digitVal y4
      let m := digitVal m1 * 10 + digitVal m2
      let d := digitVal d1 * 10 + digitVal d2
      if 1 ≤ y ∧ 1 ≤ m ∧ m ≤ 12 ∧ 1 ≤ d ∧ d ≤ daysInMonth y m then
        some ((y : Int) * 10000 + (m : Int) * 100 + (d : Int))
      else none
    else none
  | _ => none

/-- The due-date parsing of `_fetch_todos` (lines 122-129): an empty
string stays `None`; otherwise the text before the first "T" is parsed as
an ISO date, and a `ValueError` is logged and leaves the due date `None`
instead of aborting the batch. -/
def parseDueDate (s : String) : Option Int :=
  if s = "" then none
  else parseIsoDate (beforeT s)

/-- The `TodoItem` built for one raw record (lines 110-140): stripped
description and notes, context and project names resolved through the
id-to-name mappings with "" as fallback, the parsed due date, and the
default priority 0. -/
def mkTodoItem (contexts projects : List (Nat × String)) (r : RawTodo) : TodoItem :=
  { description := pyStrip r.description,
    context := match r.contextId with
      | some i => (natLookup contexts i).getD ""
      | none => "",
    project := match r.projectId with
      | some i => (natLookup projects i).getD ""
      | none => "",
    due_date := parseDueDate r.due,
    notes := pyStrip r.notes,
    priority := 0 }

/-- `_fetch_todos`: one `TodoItem` per raw element with a non-empty
stripped description, in document order. -/
def fetchTodos (contexts projects : List (Nat × String)) (raws : List RawTodo) : List TodoItem :=
  raws.filterMap fun r =>
    if pyStrip r.description = "" then none
    else some (mkTodoItem contexts projects r)

/-- C10: a raw todo whose due string is present but not a parsable ISO
date is still parsed — it keeps its place in the batch with no due date
(the ValueError is logged, not raised) — and the deadline filter then
excludes it from the planner output entirely: the output equals the
output for the same batch without that record. -/
theorem c10_malformed_due_date (contexts projects : List (Nat × String))
    (xs ys : List RawTodo) (r : RawTodo) (target : Int)
    (hdesc : pyStrip r.description ≠ "")
    (hdue : r.due ≠ "")
    (hparse : parseIsoDate (beforeT r.due) = none) :
    fetchTodos contexts projects (xs ++ r :: ys) =
      fetchTodos contexts projects xs ++
        mkTodoItem contexts projects r :: fetchTodos contexts projects ys ∧
    (mkTodoItem contexts projects r).due_date = none ∧
    fetchRelevant (fetchTodos contexts projects (xs ++ r :: ys)) target =
      fetchRelevant (fetchTodos contexts projects (xs ++ ys)) target := by
  have hsplit : fetchTodos contexts projects (xs ++ r :: ys) =
      fetchTodos contexts projects xs ++
        mkTodoItem contexts projects r :: fetchTodos contexts projects ys := by
    simp [fetchTodos, List.filterMap_append, List.filterMap_cons, hdesc]
  have hnone : (mkTodoItem contexts projects r).due_date = none := by
    simp [mkTodoItem, parseDueDate, hdue, hparse]
  refine ⟨hsplit, hnone, ?_⟩
  have hirr : isRelevant target (mkTodoItem contexts projects r) = false := by
    simp [isRelevant, hnone]
  unfold fetchRelevant
  rw [hsplit]
  have hmid : fetchTodos contexts projects (xs ++ ys) =
      fetchTodos contexts projects xs ++ fetchTodos contexts projects ys := by
    simp [fetchTodos, List.filterMap_append]
  rw [hmid, List.filter_append, List.filter_append, List.filter_cons, hirr]
  simp

/-- A concrete raw todo whose due string is present but malformed. -/
def c10raw : RawTodo := ⟨"Buy milk", none, none, "soon", ""⟩

/-- Witness for C10 at a concrete input: the record with due string
"soon" is kept in the parsed batch with no due date and contributes
nothing to the filtered output. -/
theorem c10_witness :
    fetchTodos [] [] [c10raw] = [mkTodoItem [] [] c10raw] ∧
    (mkTodoItem [] [] c10raw).due_date = none ∧
    fetchRelevant (fetchTodos [] [] [c10raw]) 20260101 =
      fetchRelevant (fetchTodos [] [] []) 20260101 := by
  have h := c10_malformed_due_date [] [] [] [] c10raw 20260101
    (by decide) (by decide) (by decide)
  simpa using h

end DailyPlanner
